import Mathlib

/-!
# Verification of the Simple_DB transactional key-value store

A shallow embedding of `src/main.rs` (claytn/Simple_DB): an in-memory
key-value store with a reverse occurrence-count index and nested
BEGIN/ROLLBACK/COMMIT transactions.

Rust `HashMap`s are modelled as association lists with unique keys
(`alookup`, `ainsert`, `aupdate`, `aremove` mirror `get`/`contains_key`,
`insert`, `get_mut` mutation, and `remove`).  Rust `i32` values are
modelled as `Int`; the command validator's `parse::<i32>()` is modelled
with an explicit 32-bit range check.  The `Vec<transaction>` stack is a
`List transaction` whose head is the top (Vec push/pop act at the same
end).  `println!` output is collected as a `List String`, including the
`"> "` prefix exactly as the source prints it.
-/

set_option autoImplicit false

namespace SimpleDB

section AssocList

variable {α : Type} {β : Type} [DecidableEq α]

/-- First-match lookup in an association list; models `HashMap::get` /
`HashMap::contains_key` (present iff `isSome`). -/
def alookup (k : α) : List (α × β) → Option β
  | [] => none
  | (a, b) :: t => if a = k then some b else alookup k t

/-- Remove the first pair with key `k`; models `HashMap::remove`
(association lists built by our operations have unique keys). -/
def aremove (k : α) : List (α × β) → List (α × β)
  | [] => []
  | (a, b) :: t => if a = k then t else (a, b) :: aremove k t

/-- Apply `f` to the value of the first pair with key `k`, if any;
models mutation through `HashMap::get_mut`. -/
def aupdate (k : α) (f : β → β) : List (α × β) → List (α × β)
  | [] => []
  | (a, b) :: t => if a = k then (a, f b) :: t else (a, b) :: aupdate k f t

/-- Insert-or-replace; models `HashMap::insert`. -/
def ainsert (k : α) (v : β) (m : List (α × β)) : List (α × β) :=
  (k, v) :: aremove k m

/-- Number of pairs whose value is `v`; on unique-key lists this is the
number of keys currently mapped to `v`. -/
def countVal [DecidableEq β] (m : List (α × β)) (v : β) : Nat :=
  match m with
  | [] => 0
  | (_, b) :: t => (if b = v then 1 else 0) + countVal t v

end AssocList

/-- The Rust `transaction` struct: forward map `key_val` and reverse
occurrence-count index `val_quant`. -/
structure transaction where
  key_val : List (String × Int)
  val_quant : List (Int × Int)
  deriving DecidableEq

namespace transaction

/-- `transaction::new` -/
def new : transaction := { key_val := [], val_quant := [] }

/-- `transaction::set` from `src/main.rs` lines 68–91: if `key` already
maps to `current_val`, decrement `val_quant[current_val]` if that entry
exists; then insert `key_val[key] = val`; then increment
`val_quant[val]` if present, else create it at `1`. -/
def set (s : transaction) (key : String) (val : Int) : transaction :=
  let s1 : transaction :=
    match alookup key s.key_val with
    | some current_val =>
      match alookup current_val s.val_quant with
      | some _ => { s with val_quant := aupdate current_val (fun c => c - 1) s.val_quant }
      | none => s
    | none => s
  let s2 : transaction := { s1 with key_val := ainsert key val s1.key_val }
  match alookup val s2.val_quant with
  | some _ => { s2 with val_quant := aupdate val (fun c => c + 1) s2.val_quant }
  | none => { s2 with val_quant := ainsert val 1 s2.val_quant }

/-- `transaction::unset` from `src/main.rs` lines 93–106: if `key` is
absent do nothing; otherwise remove it from `key_val` and decrement
`val_quant[value]` if that entry exists. -/
def unset (s : transaction) (key : String) : transaction :=
  match alookup key s.key_val with
  | some value =>
    let s1 : transaction := { s with key_val := aremove key s.key_val }
    match alookup value s1.val_quant with
    | some _ => { s1 with val_quant := aupdate value (fun c => c - 1) s1.val_quant }
    | none => s1
  | none => s

/-- `transaction::get`: the value printed is the stored one, or NULL. -/
def get (s : transaction) (key : String) : Option Int :=
  alookup key s.key_val

/-- `transaction::num_equal_to` from `src/main.rs` lines 118–128: print
`val_quant[v]` when the entry is present, else `0`.  (The Rust code
checks `contains_key` and then `get`; the two agree, so the nested
branches collapse to one match.) -/
def num_equal_to (s : transaction) (v : Int) : Int :=
  match alookup v s.val_quant with
  | some count => count
  | none => 0

end transaction

/-- The Rust `db_command` enum. -/
inductive db_command where
  | SET (key : String) (value : Int)
  | GET (key : String)
  | UNSET (key : String)
  | NUMEQUALTO (value : Int)
  | END
  | BEGIN
  | ROLLBACK
  | COMMIT
  deriving DecidableEq

/-- Result of one `dispatch_command` call: the new current transaction,
the new transaction stack, the lines printed, and whether the process
exits (`END` calls `process::exit(0)`). -/
structure DispatchResult where
  ct : transaction
  ts : List transaction
  output : List String
  exits : Bool
  deriving DecidableEq

/-- `dispatch_command` from `src/main.rs` lines 213–247.  The stack's
head is its top: `Vec::push`/`Vec::pop` act at the same end. -/
def dispatch_command (cmd : db_command) (ct : transaction) (ts : List transaction) :
    DispatchResult :=
  match cmd with
  | db_command.SET key value => ⟨ct.set key value, ts, [], false⟩
  | db_command.GET key =>
    match ct.get key with
    | some value => ⟨ct, ts, ["> " ++ toString value], false⟩
    | none => ⟨ct, ts, ["> NULL"], false⟩
  | db_command.NUMEQUALTO value => ⟨ct, ts, ["> " ++ toString (ct.num_equal_to value)], false⟩
  | db_command.UNSET key => ⟨ct.unset key, ts, [], false⟩
  | db_command.BEGIN =>
    ⟨ct, { val_quant := ct.val_quant, key_val := ct.key_val } :: ts, [], false⟩
  | db_command.ROLLBACK =>
    if ts.isEmpty then ⟨ct, ts, ["> NO TRANSACTION"], false⟩
    else
      match ts with
      | tran :: rest => ⟨{ val_quant := tran.val_quant, key_val := tran.key_val }, rest, [], false⟩
      | [] => ⟨ct, ts, [], false⟩
  | db_command.COMMIT =>
    if ts.isEmpty then ⟨ct, ts, ["> NO TRANSACTION"], false⟩
    else ⟨ct, [], [], false⟩
  | db_command.END => ⟨ct, ts, [], true⟩

/-- One dispatch step on the pair (current transaction, stack). -/
def stepState (cmd : db_command) (st : transaction × List transaction) :
    transaction × List transaction :=
  ((dispatch_command cmd st.1 st.2).ct, (dispatch_command cmd st.1 st.2).ts)

/-- Run a command sequence, tracking only the state. -/
def runState (cmds : List db_command) (st : transaction × List transaction) :
    transaction × List transaction :=
  match cmds with
  | [] => st
  | c :: rest => runState rest (stepState c st)

/-- Commands that act only on the current scope (no stack interaction). -/
def isScopeCmd : db_command → Bool
  | db_command.SET _ _ => true
  | db_command.GET _ => true
  | db_command.UNSET _ => true
  | db_command.NUMEQUALTO _ => true
  | _ => false

/-- The SET/UNSET mutations of a scope, for stating invariants. -/
inductive scope_op where
  | set (key : String) (val : Int)
  | unset (key : String)

/-- Apply one scope mutation. -/
def applyOp (s : transaction) : scope_op → transaction
  | scope_op.set k v => s.set k v
  | scope_op.unset k => s.unset k

/-- Apply a sequence of scope mutations, left to right. -/
def applyOps (s : transaction) : List scope_op → transaction
  | [] => s
  | op :: rest => applyOps (applyOp s op) rest

/-- Digit-string to `Nat`: `none` unless nonempty and all ASCII digits. -/
def parseDigits (cs : List Char) : Option Nat :=
  match cs with
  | [] => none
  | _ =>
    if cs.all Char.isDigit then
      some (cs.foldl (fun acc c => acc * 10 + (c.toNat - 48)) 0)
    else none

/-- Rust `str::parse::<i32>()`: optional single leading sign, then one
or more ASCII digits, value within the `i32` range. -/
def parse_i32 (str : String) : Option Int :=
  let cs := str.toList
  let signed : Int × List Char :=
    match cs with
    | '+' :: rest => (1, rest)
    | '-' :: rest => (-1, rest)
    | _ => (1, cs)
  match parseDigits signed.2 with
  | none => none
  | some n =>
    let v : Int := signed.1 * (n : Int)
    if -2147483648 ≤ v ∧ v ≤ 2147483647 then some v else none

/-- `is_valid_command` from `src/main.rs` lines 132–210, including its
two literal slips: the SET-value error reads `Invalid value of supplied
to SET`, and the COMMIT arity error names `BEGIN`.  The Rust function
begins with `match command[0]`, which panics (index out of bounds) when
the token vector is empty — e.g. on a blank input line; `none` models
that panic, `some` the returned `Result`. -/
def is_valid_command (command : List String) : Option (Except String db_command) :=
  match command with
  | [] => none
  | c0 :: _ =>
    some (
      if c0 = "SET" then
        if command.length = 3 then
          match parse_i32 (command.getD 2 "") with
          | some value => Except.ok (db_command.SET (command.getD 1 "") value)
          | none => Except.error "> Invalid value of supplied to SET"
        else Except.error "> Incorrect number of arguments for SET command"
      else if c0 = "GET" then
        if command.length = 2 then Except.ok (db_command.GET (command.getD 1 ""))
        else Except.error "> Incorrect number of arguments for GET command"
      else if c0 = "NUMEQUALTO" then
        if command.length = 2 then
          match parse_i32 (command.getD 1 "") with
          | some value => Except.ok (db_command.NUMEQUALTO value)
          | none => Except.error "> Invalid value supplied to NUMEQUALTO"
        else Except.error "> Incorrect number of arguments for NUMEQUALTO command"
      else if c0 = "UNSET" then
        if command.length = 2 then Except.ok (db_command.UNSET (command.getD 1 ""))
        else Except.error "> Incorrect number of arguments for UNSET command"
      else if c0 = "BEGIN" then
        if command.length = 1 then Except.ok db_command.BEGIN
        else Except.error "> Incorrect number of arguments for BEGIN command"
      else if c0 = "ROLLBACK" then
        if command.length = 1 then Except.ok db_command.ROLLBACK
        else Except.error "> Incorrect number of arguments for ROLLBACK command"
      else if c0 = "COMMIT" then
        if command.length = 1 then Except.ok db_command.COMMIT
        else Except.error "> Incorrect number of arguments for BEGIN command"
      else if c0 = "END" then
        if command.length = 1 then Except.ok db_command.END
        else Except.error "> Incorrect number of arguments for END command"
      else Except.error "> INVALID COMMAND")

section AssocLemmas

variable {α : Type} {β : Type} [DecidableEq α]

theorem alookup_aremove_ne (k k' : α) (m : List (α × β)) (h : k' ≠ k) :
    alookup k' (aremove k m) = alookup k' m := by
  induction m with
  | nil => rfl
  | cons p t ih =>
    obtain ⟨a, b⟩ := p
    by_cases hk : a = k
    · simp [aremove, alookup, hk, Ne.symm h]
    · by_cases hk' : a = k'
      · simp [aremove, alookup, hk, hk', h]
      · simp [aremove, alookup, hk, hk', ih]

theorem aremove_alookup_none (k : α) (m : List (α × β)) (h : alookup k m = none) :
    aremove k m = m := by
  induction m with
  | nil => rfl
  | cons p t ih =>
    obtain ⟨a, b⟩ := p
    simp only [alookup] at h
    by_cases hk : a = k
    · rw [if_pos hk] at h; exact absurd h (by simp)
    · rw [if_neg hk] at h
      simp only [aremove, if_neg hk]
      rw [ih h]

theorem alookup_aupdate (k k' : α) (f : β → β) (m : List (α × β)) :
    alookup k' (aupdate k f m) =
      if k' = k then Option.map f (alookup k m) else alookup k' m := by
  induction m with
  | nil => simp [aupdate, alookup]
  | cons p t ih =>
    obtain ⟨a, b⟩ := p
    by_cases hk : a = k
    · by_cases hk' : k' = k
      · simp [aupdate, alookup, hk, hk', hk.trans hk'.symm]
      · have hne : k ≠ k' := fun e => hk' e.symm
        simp [aupdate, alookup, hk, hk', hne]
    · by_cases hk' : a = k'
      · have hne : k' ≠ k := fun e => hk (hk'.trans e)
        simp [aupdate, alookup, hk, hk', hne]
      · simp [aupdate, alookup, hk, hk', ih]

theorem alookup_ainsert (k k' : α) (v : β) (m : List (α × β)) :
    alookup k' (ainsert k v m) = if k' = k then some v else alookup k' m := by
  simp only [ainsert, alookup]
  by_cases hk : k = k'
  · rw [if_pos hk, if_pos hk.symm]
  · rw [if_neg hk, if_neg fun e : k' = k => hk e.symm,
      alookup_aremove_ne _ _ _ fun e : k' = k => hk e.symm]

theorem countVal_ainsert [DecidableEq β] (k : α) (v v' : β) (m : List (α × β)) :
    countVal (ainsert k v m) v' = (if v = v' then 1 else 0) + countVal (aremove k m) v' := rfl

theorem countVal_aremove [DecidableEq β] (k : α) (w v : β) (m : List (α × β))
    (h : alookup k m = some w) :
    countVal m v = countVal (aremove k m) v + (if w = v then 1 else 0) := by
  induction m with
  | nil => exact absurd h (by simp [alookup])
  | cons p t ih =>
    obtain ⟨a, b⟩ := p
    simp only [alookup] at h
    simp only [aremove, countVal]
    by_cases hk : a = k
    · rw [if_pos hk] at h
      rw [if_pos hk]
      have hb : b = w := by injection h
      subst hb
      omega
    · rw [if_neg hk] at h
      rw [if_neg hk, countVal, ih h]
      omega

theorem countVal_pos_of_alookup [DecidableEq β] (k : α) (w : β) (m : List (α × β))
    (h : alookup k m = some w) : 0 < countVal m w := by
  induction m with
  | nil => exact absurd h (by simp [alookup])
  | cons p t ih =>
    obtain ⟨a, b⟩ := p
    simp only [alookup] at h
    simp only [countVal]
    by_cases hk : a = k
    · rw [if_pos hk] at h
      have hb : b = w := by injection h
      rw [if_pos hb]
      omega
    · rw [if_neg hk] at h
      have := ih h
      by_cases hb : b = w
      · rw [if_pos hb]; omega
      · rw [if_neg hb]; omega

end AssocLemmas

section Invariant

/-- The reverse-index invariant of a scope: every `val_quant` entry
stores the exact number of keys holding that value, and every value
held by at least one key has a `val_quant` entry. -/
def Inv (s : transaction) : Prop :=
  ∀ v : Int,
    (∀ c : Int, alookup v s.val_quant = some c → c = (countVal s.key_val v : Int)) ∧
    (0 < countVal s.key_val v → (alookup v s.val_quant).isSome = true)

theorem Inv_new : Inv transaction.new := by
  intro v
  constructor
  · intro c hc
    simp [transaction.new, alookup] at hc
  · intro hpos
    simp [transaction.new, countVal] at hpos

theorem countVal_ainsert_of_lookup {kv : List (String × Int)} (k : String) (cv val v : Int)
    (hkv : alookup k kv = some cv) :
    countVal (ainsert k val kv) v + (if cv = v then 1 else 0) =
      (if val = v then 1 else 0) + countVal kv v := by
  rw [countVal_ainsert, countVal_aremove k cv v kv hkv]
  ring

theorem countVal_ainsert_of_lookup_none {kv : List (String × Int)} (k : String) (val v : Int)
    (hkv : alookup k kv = none) :
    countVal (ainsert k val kv) v = (if val = v then 1 else 0) + countVal kv v := by
  rw [countVal_ainsert, aremove_alookup_none k kv hkv]

theorem countVal_eq_zero_of_no_entry {s : transaction} (v : Int) (h : Inv s)
    (hvq : alookup v s.val_quant = none) : countVal s.key_val v = 0 := by
  by_contra hne
  have := (h v).2 (Nat.pos_of_ne_zero hne)
  rw [hvq] at this
  exact absurd this (by simp)

theorem Inv_mk (K : List (String × Int)) (Q : List (Int × Int))
    (h : ∀ v : Int, (∀ c : Int, alookup v Q = some c → c = (countVal K v : Int)) ∧
      (0 < countVal K v → (alookup v Q).isSome = true)) :
    Inv { key_val := K, val_quant := Q } := h

theorem Inv_set (s : transaction) (k : String) (val : Int) (h : Inv s) :
    Inv (s.set k val) := by
  cases hkv : alookup k s.key_val with
  | none =>
    cases hvq : alookup val s.val_quant with
    | none =>
      have hres : s.set k val =
          { key_val := ainsert k val s.key_val, val_quant := ainsert val 1 s.val_quant } := by
        simp [transaction.set, hkv, hvq]
      have hz : countVal s.key_val val = 0 := countVal_eq_zero_of_no_entry val h hvq
      rw [hres]
      apply Inv_mk
      intro v
      constructor
      · intro c hc
        rw [alookup_ainsert] at hc
        by_cases hvv : v = val
        · rw [if_pos hvv] at hc
          injection hc with hc
          have hcv := countVal_ainsert_of_lookup_none k val v hkv
          rw [if_pos hvv.symm] at hcv
          have hlink : countVal s.key_val v = countVal s.key_val val := by rw [hvv]
          omega
        · rw [if_neg hvv] at hc
          have := (h v).1 c hc
          have hcv := countVal_ainsert_of_lookup_none k val v hkv
          rw [if_neg fun e : val = v => hvv e.symm] at hcv
          omega
      · intro hpos
        rw [alookup_ainsert]
        by_cases hvv : v = val
        · rw [if_pos hvv]; rfl
        · rw [if_neg hvv]
          have hcv := countVal_ainsert_of_lookup_none k val v hkv
          rw [if_neg fun e : val = v => hvv e.symm] at hcv
          exact (h v).2 (by omega)
    | some c1 =>
      have hres : s.set k val =
          { key_val := ainsert k val s.key_val,
            val_quant := aupdate val (fun c => c + 1) s.val_quant } := by
        simp [transaction.set, hkv, hvq]
      have hc1v : c1 = (countVal s.key_val val : Int) := (h val).1 c1 hvq
      rw [hres]
      apply Inv_mk
      intro v
      constructor
      · intro c hc
        rw [alookup_aupdate] at hc
        by_cases hvv : v = val
        · rw [if_pos hvv, hvq] at hc
          simp only [Option.map_some'] at hc
          injection hc with hc
          have hcv := countVal_ainsert_of_lookup_none k val v hkv
          rw [if_pos hvv.symm] at hcv
          have hlink : countVal s.key_val v = countVal s.key_val val := by rw [hvv]
          omega
        · rw [if_neg hvv] at hc
          have := (h v).1 c hc
          have hcv := countVal_ainsert_of_lookup_none k val v hkv
          rw [if_neg fun e : val = v => hvv e.symm] at hcv
          omega
      · intro hpos
        rw [alookup_aupdate]
        by_cases hvv : v = val
        · rw [if_pos hvv, hvq]; rfl
        · rw [if_neg hvv]
          have hcv := countVal_ainsert_of_lookup_none k val v hkv
          rw [if_neg fun e : val = v => hvv e.symm] at hcv
          exact (h v).2 (by omega)
  | some cv =>
    have hposcv : 0 < countVal s.key_val cv := countVal_pos_of_alookup k cv s.key_val hkv
    have hsomecv := (h cv).2 hposcv
    cases hc0 : alookup cv s.val_quant with
    | none => rw [hc0] at hsomecv; exact absurd hsomecv (by simp)
    | some c0 =>
    have hc0v : c0 = (countVal s.key_val cv : Int) := (h cv).1 c0 hc0
    have hcnt : ∀ v, countVal (ainsert k val s.key_val) v + (if cv = v then 1 else 0) =
        (if val = v then 1 else 0) + countVal s.key_val v :=
      fun v => countVal_ainsert_of_lookup k cv val v hkv
    cases hv1 : alookup val (aupdate cv (fun c => c - 1) s.val_quant) with
    | some c1 =>
      have hres : s.set k val =
          { key_val := ainsert k val s.key_val,
            val_quant := aupdate val (fun c => c + 1)
              (aupdate cv (fun c => c - 1) s.val_quant) } := by
        simp [transaction.set, hkv, hc0, hv1]
      rw [hres]
      apply Inv_mk
      intro v
      constructor
      · intro c hc
        rw [alookup_aupdate] at hc
        by_cases hvv : v = val
        · rw [if_pos hvv, hv1] at hc
          simp only [Option.map_some'] at hc
          injection hc with hc
          rw [alookup_aupdate] at hv1
          by_cases hvc : val = cv
          · rw [if_pos hvc, hc0] at hv1
            simp only [Option.map_some'] at hv1
            injection hv1 with hv1
            have hcv := hcnt v
            rw [if_pos (hvc.symm.trans hvv.symm), if_pos hvv.symm] at hcv
            have hlink : countVal s.key_val v = countVal s.key_val cv := by
              rw [hvv, hvc]
            omega
          · rw [if_neg hvc] at hv1
            have hc1v := (h val).1 c1 hv1
            have hcv := hcnt v
            rw [if_neg fun e : cv = v => hvc (e.trans hvv).symm, if_pos hvv.symm] at hcv
            have hlink : countVal s.key_val v = countVal s.key_val val := by rw [hvv]
            omega
        · rw [if_neg hvv, alookup_aupdate] at hc
          by_cases hvc : v = cv
          · rw [if_pos hvc, hc0] at hc
            simp only [Option.map_some'] at hc
            injection hc with hc
            have hcv := hcnt v
            rw [if_pos hvc.symm, if_neg fun e : val = v => hvv e.symm] at hcv
            have hlink : countVal s.key_val v = countVal s.key_val cv := by rw [hvc]
            omega
          · rw [if_neg hvc] at hc
            have := (h v).1 c hc
            have hcv := hcnt v
            rw [if_neg fun e : cv = v => hvc e.symm,
              if_neg fun e : val = v => hvv e.symm] at hcv
            omega
      · intro hpos
        rw [alookup_aupdate]
        by_cases hvv : v = val
        · rw [if_pos hvv, hv1]; rfl
        · rw [if_neg hvv, alookup_aupdate]
          by_cases hvc : v = cv
          · rw [if_pos hvc, hc0]; rfl
          · rw [if_neg hvc]
            have hcv := hcnt v
            rw [if_neg fun e : cv = v => hvc e.symm,
              if_neg fun e : val = v => hvv e.symm] at hcv
            exact (h v).2 (by omega)
    | none =>
      have hvalcv : val ≠ cv := by
        intro e
        rw [alookup_aupdate, if_pos e, hc0] at hv1
        exact absurd hv1 (by simp)
      have hvqval : alookup val s.val_quant = none := by
        rw [alookup_aupdate, if_neg hvalcv] at hv1
        exact hv1
      have hzval : countVal s.key_val val = 0 := countVal_eq_zero_of_no_entry val h hvqval
      have hres : s.set k val =
          { key_val := ainsert k val s.key_val,
            val_quant := ainsert val 1 (aupdate cv (fun c => c - 1) s.val_quant) } := by
        simp [transaction.set, hkv, hc0, hv1]
      rw [hres]
      apply Inv_mk
      intro v
      constructor
      · intro c hc
        rw [alookup_ainsert] at hc
        by_cases hvv : v = val
        · rw [if_pos hvv] at hc
          injection hc with hc
          have hcv := hcnt v
          rw [if_neg fun e : cv = v => hvalcv (e.trans hvv).symm, if_pos hvv.symm] at hcv
          have hlink : countVal s.key_val v = countVal s.key_val val := by rw [hvv]
          omega
        · rw [if_neg hvv, alookup_aupdate] at hc
          by_cases hvc : v = cv
          · rw [if_pos hvc, hc0] at hc
            simp only [Option.map_some'] at hc
            injection hc with hc
            have hcv := hcnt v
            rw [if_pos hvc.symm, if_neg fun e : val = v => hvv e.symm] at hcv
            have hlink : countVal s.key_val v = countVal s.key_val cv := by rw [hvc]
            omega
          · rw [if_neg hvc] at hc
            have := (h v).1 c hc
            have hcv := hcnt v
            rw [if_neg fun e : cv = v => hvc e.symm,
              if_neg fun e : val = v => hvv e.symm] at hcv
            omega
      · intro hpos
        rw [alookup_ainsert]
        by_cases hvv : v = val
        · rw [if_pos hvv]; rfl
        · rw [if_neg hvv, alookup_aupdate]
          by_cases hvc : v = cv
          · rw [if_pos hvc, hc0]; rfl
          · rw [if_neg hvc]
            have hcv := hcnt v
            rw [if_neg fun e : cv = v => hvc e.symm,
              if_neg fun e : val = v => hvv e.symm] at hcv
            exact (h v).2 (by omega)
theorem Inv_unset (s : transaction) (k : String) (h : Inv s) :
    Inv (s.unset k) := by
  cases hkv : alookup k s.key_val with
  | none =>
    have hres : s.unset k = s := by simp [transaction.unset, hkv]
    rw [hres]; exact h
  | some v0 =>
    have hpos0 : 0 < countVal s.key_val v0 := countVal_pos_of_alookup k v0 s.key_val hkv
    have hsome := (h v0).2 hpos0
    cases hc0 : alookup v0 s.val_quant with
    | none => rw [hc0] at hsome; exact absurd hsome (by simp)
    | some c0 =>
    have hc0v : c0 = (countVal s.key_val v0 : Int) := (h v0).1 c0 hc0
    have hres : s.unset k =
        { key_val := aremove k s.key_val,
          val_quant := aupdate v0 (fun c => c - 1) s.val_quant } := by
      simp [transaction.unset, hkv, hc0]
    have hcnt : ∀ v, countVal s.key_val v =
        countVal (aremove k s.key_val) v + (if v0 = v then 1 else 0) :=
      fun v => countVal_aremove k v0 v s.key_val hkv
    rw [hres]
    apply Inv_mk
    intro v
    constructor
    · intro c hc
      rw [alookup_aupdate] at hc
      by_cases hvv : v = v0
      · rw [if_pos hvv, hc0] at hc
        simp only [Option.map_some'] at hc
        injection hc with hc
        have hcv := hcnt v
        rw [if_pos hvv.symm] at hcv
        have hlink : countVal s.key_val v = countVal s.key_val v0 := by rw [hvv]
        omega
      · rw [if_neg hvv] at hc
        have := (h v).1 c hc
        have hcv := hcnt v
        rw [if_neg fun e : v0 = v => hvv e.symm] at hcv
        omega
    · intro hpos
      rw [alookup_aupdate]
      by_cases hvv : v = v0
      · rw [if_pos hvv, hc0]; rfl
      · rw [if_neg hvv]
        have hcv := hcnt v
        rw [if_neg fun e : v0 = v => hvv e.symm] at hcv
        exact (h v).2 (by omega)

theorem Inv_applyOp (s : transaction) (op : scope_op) (h : Inv s) :
    Inv (applyOp s op) := by
  cases op with
  | set k v => exact Inv_set s k v h
  | unset k => exact Inv_unset s k h

theorem Inv_applyOps (ops : List scope_op) :
    ∀ s : transaction, Inv s → Inv (applyOps s ops) := by
  induction ops with
  | nil => intro s h; exact h
  | cons op rest ih => intro s h; exact ih (applyOp s op) (Inv_applyOp s op h)

end Invariant

/-- C1: after any sequence of SET/UNSET operations on a scope starting
from the empty scope, every value held by at least one key has a
`val_quant` entry equal to the exact number of keys mapped to it. -/
theorem reverse_index_exact_after_set_unset (ops : List scope_op) (v : Int)
    (hpos : 0 < countVal (applyOps transaction.new ops).key_val v) :
    alookup v (applyOps transaction.new ops).val_quant =
      some ((countVal (applyOps transaction.new ops).key_val v : Int)) := by
  have hinv := Inv_applyOps ops transaction.new Inv_new
  have hsome := (hinv v).2 hpos
  cases hc : alookup v (applyOps transaction.new ops).val_quant with
  | none => rw [hc] at hsome; exact absurd hsome (by simp)
  | some c => rw [(hinv v).1 c hc]

/-- Witness for C1: after `SET a 10; SET b 10; UNSET a; SET b 20` the
value 20 is held by exactly one key and `val_quant[20] = 1`. -/
theorem reverse_index_exact_after_set_unset_witness :
    0 < countVal (applyOps transaction.new
      [scope_op.set "a" 10, scope_op.set "b" 10, scope_op.unset "a",
       scope_op.set "b" 20]).key_val 20 ∧
    alookup 20 (applyOps transaction.new
      [scope_op.set "a" 10, scope_op.set "b" 10, scope_op.unset "a",
       scope_op.set "b" 20]).val_quant =
      some ((countVal (applyOps transaction.new
        [scope_op.set "a" 10, scope_op.set "b" 10, scope_op.unset "a",
         scope_op.set "b" 20]).key_val 20 : Int)) :=
  ⟨by decide, reverse_index_exact_after_set_unset
    [scope_op.set "a" 10, scope_op.set "b" 10, scope_op.unset "a",
     scope_op.set "b" 20] 20 (by decide)⟩

section EntryPersistence

theorem alookup_aupdate_isSome {α β : Type} [DecidableEq α] (k k' : α) (f : β → β)
    (m : List (α × β)) :
    (alookup k' (aupdate k f m)).isSome = (alookup k' m).isSome := by
  rw [alookup_aupdate]
  by_cases h : k' = k
  · rw [if_pos h, h]
    cases alookup k m <;> rfl
  · rw [if_neg h]

theorem set_preserves_valQuant_entry (s : transaction) (k : String) (val v : Int)
    (h : (alookup v s.val_quant).isSome = true) :
    (alookup v (s.set k val).val_quant).isSome = true := by
  cases hkv : alookup k s.key_val with
  | none =>
    cases hvq : alookup val s.val_quant with
    | none =>
      have hres : s.set k val =
          { key_val := ainsert k val s.key_val, val_quant := ainsert val 1 s.val_quant } := by
        simp [transaction.set, hkv, hvq]
      rw [hres]
      show (alookup v (ainsert val 1 s.val_quant)).isSome = true
      rw [alookup_ainsert]
      by_cases hvv : v = val
      · rw [if_pos hvv]; rfl
      · rw [if_neg hvv]; exact h
    | some c1 =>
      have hres : s.set k val =
          { key_val := ainsert k val s.key_val,
            val_quant := aupdate val (fun c => c + 1) s.val_quant } := by
        simp [transaction.set, hkv, hvq]
      rw [hres]
      show (alookup v (aupdate val (fun c => c + 1) s.val_quant)).isSome = true
      rw [alookup_aupdate_isSome]
      exact h
  | some cv =>
    cases hc0 : alookup cv s.val_quant with
    | none =>
      cases hvq : alookup val s.val_quant with
      | none =>
        have hres : s.set k val =
            { key_val := ainsert k val s.key_val, val_quant := ainsert val 1 s.val_quant } := by
          simp [transaction.set, hkv, hc0, hvq]
        rw [hres]
        show (alookup v (ainsert val 1 s.val_quant)).isSome = true
        rw [alookup_ainsert]
        by_cases hvv : v = val
        · rw [if_pos hvv]; rfl
        · rw [if_neg hvv]; exact h
      | some c1 =>
        have hres : s.set k val =
            { key_val := ainsert k val s.key_val,
              val_quant := aupdate val (fun c => c + 1) s.val_quant } := by
          simp [transaction.set, hkv, hc0, hvq]
        rw [hres]
        show (alookup v (aupdate val (fun c => c + 1) s.val_quant)).isSome = true
        rw [alookup_aupdate_isSome]
        exact h
    | some c0 =>
      cases hv1 : alookup val (aupdate cv (fun c => c - 1) s.val_quant) with
      | none =>
        have hres : s.set k val =
            { key_val := ainsert k val s.key_val,
              val_quant := ainsert val 1 (aupdate cv (fun c => c - 1) s.val_quant) } := by
          simp [transaction.set, hkv, hc0, hv1]
        rw [hres]
        show (alookup v (ainsert val 1 (aupdate cv (fun c => c - 1) s.val_quant))).isSome = true
        rw [alookup_ainsert]
        by_cases hvv : v = val
        · rw [if_pos hvv]; rfl
        · rw [if_neg hvv, alookup_aupdate_isSome]; exact h
      | some c1 =>
        have hres : s.set k val =
            { key_val := ainsert k val s.key_val,
              val_quant := aupdate val (fun c => c + 1)
                (aupdate cv (fun c => c - 1) s.val_quant) } := by
          simp [transaction.set, hkv, hc0, hv1]
        rw [hres]
        show (alookup v (aupdate val (fun c => c + 1)
          (aupdate cv (fun c => c - 1) s.val_quant))).isSome = true
        rw [alookup_aupdate_isSome, alookup_aupdate_isSome]
        exact h

theorem unset_preserves_valQuant_entry (s : transaction) (k : String) (v : Int)
    (h : (alookup v s.val_quant).isSome = true) :
    (alookup v (s.unset k).val_quant).isSome = true := by
  cases hkv : alookup k s.key_val with
  | none =>
    have hres : s.unset k = s := by simp [transaction.unset, hkv]
    rw [hres]; exact h
  | some v0 =>
    cases hc0 : alookup v0 s.val_quant with
    | none =>
      have hres : s.unset k = { key_val := aremove k s.key_val, val_quant := s.val_quant } := by
        simp [transaction.unset, hkv, hc0]
      rw [hres]; exact h
    | some c0 =>
      have hres : s.unset k =
          { key_val := aremove k s.key_val,
            val_quant := aupdate v0 (fun c => c - 1) s.val_quant } := by
        simp [transaction.unset, hkv, hc0]
      rw [hres]
      show (alookup v (aupdate v0 (fun c => c - 1) s.val_quant)).isSome = true
      rw [alookup_aupdate_isSome]
      exact h

end EntryPersistence

/-- C4: once `val_quant` has an entry for `v`, no sequence of SET/UNSET
operations ever removes it; a retained entry with count `c` (including
`c = 0`) is what `num_equal_to` reports. -/
theorem valQuant_entry_never_removed (ops : List scope_op) (s : transaction) (v : Int)
    (h : (alookup v s.val_quant).isSome = true) :
    (alookup v (applyOps s ops).val_quant).isSome = true ∧
    (∀ c : Int, alookup v (applyOps s ops).val_quant = some c →
      (applyOps s ops).num_equal_to v = c) := by
  constructor
  · induction ops generalizing s with
    | nil => exact h
    | cons op rest ih =>
      cases op with
      | set k val => exact ih (s.set k val) (set_preserves_valQuant_entry s k val v h)
      | unset k => exact ih (s.unset k) (unset_preserves_valQuant_entry s k v h)
  · intro c hc
    unfold transaction.num_equal_to
    rw [hc]

/-- Witness for C4: `SET a 5; SET a 6` leaves the entry for 5 present at
count 0, and `NUMEQUALTO 5` reports 0. -/
theorem valQuant_entry_never_removed_witness :
    (alookup 5 ((transaction.new.set "a" 5)).val_quant).isSome = true ∧
    ((alookup 5 (applyOps (transaction.new.set "a" 5) [scope_op.set "a" 6]).val_quant).isSome
        = true ∧
      (∀ c : Int, alookup 5 (applyOps (transaction.new.set "a" 5)
          [scope_op.set "a" 6]).val_quant = some c →
        (applyOps (transaction.new.set "a" 5) [scope_op.set "a" 6]).num_equal_to 5 = c)) ∧
    alookup 5 (applyOps (transaction.new.set "a" 5) [scope_op.set "a" 6]).val_quant = some 0 :=
  ⟨by decide,
   valQuant_entry_never_removed [scope_op.set "a" 6] (transaction.new.set "a" 5) 5 (by decide),
   by decide⟩

section StackLemmas

theorem stepState_scope_stack (c : db_command) (ct : transaction) (ts : List transaction)
    (h : isScopeCmd c = true) : (stepState c (ct, ts)).2 = ts := by
  cases c with
  | SET k v => rfl
  | GET k =>
    cases hget : ct.get k with
    | none => simp [stepState, dispatch_command, hget]
    | some v => simp [stepState, dispatch_command, hget]
  | UNSET k => rfl
  | NUMEQUALTO v => rfl
  | END => simp [isScopeCmd] at h
  | BEGIN => simp [isScopeCmd] at h
  | ROLLBACK => simp [isScopeCmd] at h
  | COMMIT => simp [isScopeCmd] at h

theorem runState_scope_stack (L : List db_command) :
    ∀ (ct : transaction) (ts : List transaction),
      (∀ c ∈ L, isScopeCmd c = true) → (runState L (ct, ts)).2 = ts := by
  induction L with
  | nil => intro ct ts _; rfl
  | cons c rest ih =>
    intro ct ts h
    have hc := h c (List.mem_cons_self c rest)
    have h2 := stepState_scope_stack c ct ts hc
    show (runState rest (stepState c (ct, ts))).2 = ts
    rw [← Prod.mk.eta (p := stepState c (ct, ts)), h2]
    exact ih _ ts fun d hd => h d (List.mem_cons_of_mem c hd)

theorem runState_append (L1 L2 : List db_command) :
    ∀ st : transaction × List transaction,
      runState (L1 ++ L2) st = runState L2 (runState L1 st) := by
  induction L1 with
  | nil => intro st; rfl
  | cons c rest ih => intro st; exact ih (stepState c st)

theorem stepState_rollback_cons (x t : transaction) (rest : List transaction) :
    stepState db_command.ROLLBACK (x, t :: rest) = (t, rest) := rfl

end StackLemmas

/-- C2: with a non-empty stack, ROLLBACK pops the top snapshot and
replaces the current scope's `key_val` and `val_quant` wholesale with
it, printing nothing; consequently a BEGIN followed by any sequence of
scope commands and a ROLLBACK returns both the scope and the stack to
exactly their state at the BEGIN. -/
theorem rollback_restores_snapshot (ct t : transaction) (rest ts : List transaction)
    (L : List db_command) (hL : ∀ c ∈ L, isScopeCmd c = true) :
    dispatch_command db_command.ROLLBACK ct (t :: rest) = ⟨t, rest, [], false⟩ ∧
    runState (db_command.BEGIN :: (L ++ [db_command.ROLLBACK])) (ct, ts) = (ct, ts) := by
  constructor
  · rfl
  · show runState (L ++ [db_command.ROLLBACK]) (stepState db_command.BEGIN (ct, ts)) = (ct, ts)
    have hbegin : stepState db_command.BEGIN (ct, ts) = (ct, ct :: ts) := rfl
    rw [hbegin, runState_append]
    have hstk := runState_scope_stack L ct (ct :: ts) hL
    show stepState db_command.ROLLBACK (runState L (ct, ct :: ts)) = (ct, ts)
    rw [← Prod.mk.eta (p := runState L (ct, ct :: ts)), hstk]
    exact stepState_rollback_cons _ ct ts

/-- Witness for C2: a concrete BEGIN / SET / UNSET / ROLLBACK round trip
on a one-key scope with an empty stack. -/
theorem rollback_restores_snapshot_witness :
    dispatch_command db_command.ROLLBACK transaction.new
        [transaction.new.set "a" 1] =
      ⟨transaction.new.set "a" 1, [], [], false⟩ ∧
    runState (db_command.BEGIN ::
        ([db_command.SET "a" 20, db_command.UNSET "b"] ++ [db_command.ROLLBACK]))
      (transaction.new, []) = (transaction.new, []) :=
  rollback_restores_snapshot transaction.new (transaction.new.set "a" 1) [] []
    [db_command.SET "a" 20, db_command.UNSET "b"] (by decide)

/-- C3: with a non-empty stack of any depth, COMMIT empties the whole
stack, leaves the current scope untouched and prints nothing. -/
theorem commit_clears_stack_preserves_scope (ct : transaction) (ts : List transaction)
    (h : ts ≠ []) :
    dispatch_command db_command.COMMIT ct ts = ⟨ct, [], [], false⟩ := by
  cases ts with
  | nil => exact absurd rfl h
  | cons t rest => rfl

/-- Witness for C3: COMMIT on a depth-2 stack. -/
theorem commit_clears_stack_preserves_scope_witness :
    dispatch_command db_command.COMMIT (transaction.new.set "a" 30)
        [transaction.new, transaction.new] =
      ⟨transaction.new.set "a" 30, [], [], false⟩ :=
  commit_clears_stack_preserves_scope (transaction.new.set "a" 30)
    [transaction.new, transaction.new] (by decide)

/-- C5: with an empty stack, ROLLBACK and COMMIT leave scope and stack
unchanged and print exactly the line `> NO TRANSACTION`. -/
theorem empty_stack_no_transaction (ct : transaction) :
    dispatch_command db_command.ROLLBACK ct [] = ⟨ct, [], ["> NO TRANSACTION"], false⟩ ∧
    dispatch_command db_command.COMMIT ct [] = ⟨ct, [], ["> NO TRANSACTION"], false⟩ :=
  ⟨rfl, rfl⟩

/-- C8: `num_equal_to` returns the stored `val_quant` count when the
entry is present (even at 0), returns 0 when absent, and its dispatch
leaves the scope and the stack untouched. -/
theorem num_equal_to_reads_val_quant (s : transaction) (ts : List transaction) (v : Int) :
    (∀ c : Int, alookup v s.val_quant = some c → s.num_equal_to v = c) ∧
    (alookup v s.val_quant = none → s.num_equal_to v = 0) ∧
    dispatch_command (db_command.NUMEQUALTO v) s ts =
      ⟨s, ts, ["> " ++ toString (s.num_equal_to v)], false⟩ := by
  refine ⟨?_, ?_, rfl⟩
  · intro c hc
    unfold transaction.num_equal_to
    rw [hc]
  · intro hc
    unfold transaction.num_equal_to
    rw [hc]

/-- Witness for C8: a present entry (count 1) and an absent one. -/
theorem num_equal_to_reads_val_quant_witness :
    (transaction.new.set "a" 7).num_equal_to 7 = 1 ∧
    (transaction.new.set "a" 7).num_equal_to 99 = 0 :=
  ⟨(num_equal_to_reads_val_quant (transaction.new.set "a" 7) [] 7).1 1 (by decide),
   (num_equal_to_reads_val_quant (transaction.new.set "a" 7) [] 99).2.1 (by decide)⟩

/-- C9: UNSET of an absent key is a no-op; UNSET of a key holding `v`
removes the key from `key_val` and decrements `val_quant[v]` when that
entry exists (leaving the entry present) and leaves `val_quant`
unchanged otherwise; dispatching UNSET prints nothing. -/
theorem unset_removes_key_decrements_count (s : transaction) (ts : List transaction)
    (k : String) :
    (alookup k s.key_val = none → s.unset k = s) ∧
    (∀ v : Int, alookup k s.key_val = some v →
      (s.unset k).key_val = aremove k s.key_val ∧
      (∀ c : Int, alookup v s.val_quant = some c →
        (s.unset k).val_quant = aupdate v (fun x => x - 1) s.val_quant ∧
        alookup v (s.unset k).val_quant = some (c - 1)) ∧
      (alookup v s.val_quant = none → (s.unset k).val_quant = s.val_quant)) ∧
    (dispatch_command (db_command.UNSET k) s ts).output = [] := by
  refine ⟨?_, ?_, rfl⟩
  · intro hkv
    simp [transaction.unset, hkv]
  · intro v hkv
    refine ⟨?_, ?_, ?_⟩
    · cases hc : alookup v s.val_quant with
      | none =>
        have hres : s.unset k =
            { key_val := aremove k s.key_val, val_quant := s.val_quant } := by
          simp [transaction.unset, hkv, hc]
        rw [hres]
      | some c =>
        have hres : s.unset k =
            { key_val := aremove k s.key_val,
              val_quant := aupdate v (fun x => x - 1) s.val_quant } := by
          simp [transaction.unset, hkv, hc]
        rw [hres]
    · intro c hc
      have hres : s.unset k =
          { key_val := aremove k s.key_val,
            val_quant := aupdate v (fun x => x - 1) s.val_quant } := by
        simp [transaction.unset, hkv, hc]
      rw [hres]
      refine ⟨rfl, ?_⟩
      show alookup v (aupdate v (fun x => x - 1) s.val_quant) = some (c - 1)
      rw [alookup_aupdate, if_pos rfl, hc]
      rfl
    · intro hc
      have hres : s.unset k =
          { key_val := aremove k s.key_val, val_quant := s.val_quant } := by
        simp [transaction.unset, hkv, hc]
      rw [hres]

/-- Witness for C9: UNSET on an absent key is the identity, and on a
present key the count drops from 1 to 0. -/
theorem unset_removes_key_decrements_count_witness :
    transaction.new.unset "zz" = transaction.new ∧
    alookup 5 ((transaction.new.set "a" 5).unset "a").val_quant = some (1 - 1) :=
  ⟨(unset_removes_key_decrements_count transaction.new [] "zz").1 (by decide),
   (((unset_removes_key_decrements_count (transaction.new.set "a" 5) [] "a").2.1 5
      (by decide)).2.1 1 (by decide)).2⟩

/-- C6 (code bug): for the line `SET a x` (non-integer value) the
validator's message is `> Invalid value of supplied to SET`, which
differs from the template `Invalid value supplied to SET`. -/
theorem set_invalid_value_message_typo :
    is_valid_command ["SET", "a", "x"] =
      some (Except.error "> Invalid value of supplied to SET") ∧
    "> Invalid value of supplied to SET" ≠ "> Invalid value supplied to SET" :=
  ⟨rfl, by decide⟩

/-- C7 (code bug): for the line `COMMIT x` (wrong arity) the validator
names BEGIN instead of COMMIT in its error message. -/
theorem commit_arity_message_names_begin :
    is_valid_command ["COMMIT", "x"] =
      some (Except.error "> Incorrect number of arguments for BEGIN command") ∧
    "> Incorrect number of arguments for BEGIN command" ≠
      "> Incorrect number of arguments for COMMIT command" :=
  ⟨rfl, by decide⟩

/-- C10 (code bug): on the empty token vector (a blank input line) the
Rust validator indexes `command[0]` out of bounds and panics (modelled
as `none`); on every non-empty vector it returns a `Result`. -/
theorem is_valid_command_panics_on_empty :
    is_valid_command [] = none ∧
    ∀ (c0 : String) (rest : List String),
      (is_valid_command (c0 :: rest)).isSome = true :=
  ⟨rfl, fun _ _ => rfl⟩

end SimpleDB
